import Mathlib

/-!
Verification of the twittersphere bulk-ingestion core.

This file gives a shallow embedding of the ingestion pipeline of the
`twittersphere` package (`twittersphere/db.py`, `twittersphere/_schema.py`,
`twittersphere/process.py`) and proves or refutes the specification claims
about it.

Modelling conventions:
* An SQLite row is a `List String` (SQLite stores dynamically typed values;
  the embedding renders every bound value as its textual form, which is
  injective for the identity and timestamp columns the claims are about).
* A table is a `List Row` in insertion order; `insert or ignore` is modelled
  by `insertOrIgnore`, which appends the row unless an existing row collides
  on the table's declared uniqueness constraints.
* Python dicts (the decoded page bundles of `process.py`) are association
  lists with first-match lookup; `a | b` dict merge is `dictOr a b = b ++ a`.
* Fallible statements (KeyError / missing named bind parameter raised while
  `executemany` consumes its generator) are modelled with `Except DB DB`:
  `.error db` is an exception raised with the connection left in state `db`,
  so partially applied work is observable, exactly as in the source where
  `insert_processed` runs inside the surrounding explicit transaction with
  no savepoint.
-/

/-- Rows as bound by the Python layer: one rendered value per column. -/
abbrev Row := List String

/-- A table's contents in insertion (rowid) order. -/
abbrev Tbl := List Row

/-- The 19 tables enumerated in `_schema.table_keys` (db.py flushes exactly
these).  The two remaining tables created by the DDL
(`user_matching_ruleset`, `user_ruleset_ngram_count`) belong to the
rule-classification subsystem and never appear in `table_keys`; they are kept
as names in `schema_created_tables` below. -/
inductive Table
  | collection_context
  | user_at_time
  | directly_collected_user
  | tweet_at_time
  | directly_collected_tweet
  | tweet_hashtag
  | tweet_cashtag
  | tweet_mention
  | url
  | tweet_url
  | poll
  | poll_option
  | place
  | media
  | tweet_media
  | domain
  | entity
  | tweet_entity_domain
  | metadata
deriving DecidableEq, Repr

/-- SQL name of each table. -/
def Table.sqlName : Table → String
  | .collection_context => "collection_context"
  | .user_at_time => "user_at_time"
  | .directly_collected_user => "directly_collected_user"
  | .tweet_at_time => "tweet_at_time"
  | .directly_collected_tweet => "directly_collected_tweet"
  | .tweet_hashtag => "tweet_hashtag"
  | .tweet_cashtag => "tweet_cashtag"
  | .tweet_mention => "tweet_mention"
  | .url => "url"
  | .tweet_url => "tweet_url"
  | .poll => "poll"
  | .poll_option => "poll_option"
  | .place => "place"
  | .media => "media"
  | .tweet_media => "tweet_media"
  | .domain => "domain"
  | .entity => "entity"
  | .tweet_entity_domain => "tweet_entity_domain"
  | .metadata => "metadata"

/-- Column lists of the created tables, transcribed from the DDL in
`_schema.SCHEMA_STATEMENTS` (declaration order = `select *` order). -/
def Table.cols : Table → List String
  | .collection_context => ["context_id", "retrieved_at", "twitter_url", "twarc_version"]
  | .user_at_time =>
      ["user_id", "context_id", "retrieved_at", "name", "profile_image_url",
       "created_at", "protected", "description", "location", "pinned_tweet_id",
       "verified", "url", "username", "followers_count", "following_count",
       "tweet_count", "listed_count", "withheld_country_codes"]
  | .directly_collected_user => ["user_id"]
  | .tweet_at_time =>
      ["tweet_id", "context_id", "user_id", "created_at", "retrieved_at",
       "conversation_id", "retweeted_tweet_id", "quoted_tweet_id",
       "replied_to_tweet_id", "text", "lang", "source", "possibly_sensitive",
       "reply_settings", "like_count", "quote_count", "reply_count",
       "retweet_count", "withheld_copyright", "withheld_country_codes",
       "poll_id", "place_id"]
  | .directly_collected_tweet => ["tweet_id"]
  | .tweet_hashtag => ["tweet_id", "retrieved_at", "hashtag"]
  | .tweet_cashtag => ["tweet_id", "retrieved_at", "cashtag"]
  | .tweet_mention => ["tweet_id", "retrieved_at", "mentioned_user_id", "mentioned_username"]
  | .url =>
      ["url", "retrieved_at", "description", "display_url", "expanded_url",
       "images", "media_key", "status", "title", "unwound_url"]
  | .tweet_url => ["tweet_id", "retrieved_at", "url"]
  | .poll => ["poll_id", "retrieved_at", "duration_minutes", "end_datetime", "voting_status"]
  | .poll_option => ["poll_id", "retrieved_at", "position", "label", "votes"]
  | .place =>
      ["place_id", "country", "country_code", "full_name", "geo_type",
       "geo_bbox_1", "geo_bbox_2", "geo_bbox_3", "geo_bbox_4", "name", "place_type"]
  | .media =>
      ["media_key", "retrieved_at", "alt_text", "duration_ms",
       "preview_image_url", "view_count", "type", "url", "width", "height"]
  | .tweet_media => ["tweet_id", "retrieved_at", "media_key"]
  | .domain => ["domain_id", "name", "description"]
  | .entity => ["entity_id", "name", "description"]
  | .tweet_entity_domain => ["tweet_id", "retrieved_at", "entity_id", "domain_id"]
  | .metadata => ["key", "value"]

/-- `_schema.table_keys`: the dict driving `flush_db`, transcribed verbatim
(table name, comma-joined primary key columns), in dict order. -/
def table_keys : List (String × String) :=
  [("collection_context", "context_id"),
   ("user_at_time", "user_id,retrieved_at"),
   ("directly_collected_user", "user_id"),
   ("tweet_at_time", "tweet_id,retrieved_at"),
   ("directly_collected_tweet", "tweet_id"),
   ("tweet_hashtag", "tweet_id,retrieved_at,hashtag"),
   ("tweet_cashtag", "tweet_id,retrieved_at,cashtag"),
   ("tweet_mention", "tweet_id,retrieved_at,mentioned_user_id"),
   ("url", "url,retrieved_at"),
   ("tweet_url", "tweet_id,retrieved_at,url"),
   ("poll", "poll_id,retrieved_at"),
   ("poll_option", "poll_id,retrieved_at,position"),
   ("place", "place_id"),
   ("media", "media_key,retrieved_at"),
   ("tweet_media", "tweet_id,retrieved_at,media_key"),
   ("domain", "domain_id"),
   ("entity", "entity_id"),
   ("tweet_entity_domain", "tweet_id,retrieved_at,entity_id,domain_id"),
   ("metadata", "key")]

/-- All table names created by `_schema.SCHEMA_STATEMENTS` (`create table if
not exists ...` statements), in DDL order.  Note this list has 21 entries
while `table_keys` has 19. -/
def schema_created_tables : List String :=
  ["collection_context", "user_at_time", "directly_collected_user",
   "tweet_at_time", "directly_collected_tweet", "tweet_hashtag",
   "tweet_cashtag", "tweet_mention", "url", "tweet_url", "poll",
   "poll_option", "place", "media", "tweet_media", "domain", "entity",
   "tweet_entity_domain", "user_matching_ruleset",
   "user_ruleset_ngram_count", "metadata"]

/-- Resolve a `table_keys` name to the modelled table. -/
def Table.ofName (s : String) : Option Table :=
  if s = "collection_context" then some .collection_context
  else if s = "user_at_time" then some .user_at_time
  else if s = "directly_collected_user" then some .directly_collected_user
  else if s = "tweet_at_time" then some .tweet_at_time
  else if s = "directly_collected_tweet" then some .directly_collected_tweet
  else if s = "tweet_hashtag" then some .tweet_hashtag
  else if s = "tweet_cashtag" then some .tweet_cashtag
  else if s = "tweet_mention" then some .tweet_mention
  else if s = "url" then some .url
  else if s = "tweet_url" then some .tweet_url
  else if s = "poll" then some .poll
  else if s = "poll_option" then some .poll_option
  else if s = "place" then some .place
  else if s = "media" then some .media
  else if s = "tweet_media" then some .tweet_media
  else if s = "domain" then some .domain
  else if s = "entity" then some .entity
  else if s = "tweet_entity_domain" then some .tweet_entity_domain
  else if s = "metadata" then some .metadata
  else none

/-- The comma-joined primary key of a table as recorded in `table_keys`. -/
def Table.pkString (t : Table) : String :=
  ((table_keys.find? (fun p => p.1 = t.sqlName)).map (fun p => p.2)).getD ""

/-- Splitting a comma-joined column list, character by character. -/
def splitCommaChars : List Char → List (List Char)
  | [] => [[]]
  | c :: cs =>
    let rest := splitCommaChars cs
    if c = ',' then [] :: rest
    else
      match rest with
      | [] => [[c]]
      | g :: gs => (c :: g) :: gs

/-- Splitting a comma-joined column list into column names. -/
def splitComma (s : String) : List String := (splitCommaChars s.data).map String.mk

/-- Primary key column names (splitting the `table_keys` entry on commas,
exactly the column list used in `order by {primary_key}`). -/
def Table.pkNames (t : Table) : List String := splitComma t.pkString

/-- Positions of the primary key columns inside the table's column list. -/
def Table.keyIdx (t : Table) : List Nat := t.pkNames.map fun c => t.cols.indexOf c

/-- The primary key projection of a row. -/
def rowKey (t : Table) (r : Row) : List String := t.keyIdx.map fun i => r.getD i ""

/-- Uniqueness collision test for `insert or ignore`: a primary key collision
for every table, plus `collection_context`'s extra
`unique (retrieved_at, twitter_url, twarc_version)` constraint. -/
def rowConflict (t : Table) (old new : Row) : Bool :=
  if rowKey t old = rowKey t new then true
  else
    match t with
    | .collection_context => old.drop 1 = new.drop 1
    | _ => false

/-- `insert or ignore`: append the row unless some stored row collides with
it on a uniqueness constraint. -/
def insertOrIgnore (t : Table) (tbl : Tbl) (r : Row) : Tbl :=
  if tbl.any (fun old => rowConflict t old r) then tbl else tbl ++ [r]

/-- A database: the contents of the 19 `table_keys` tables. -/
structure DB where
  collection_context : Tbl
  user_at_time : Tbl
  directly_collected_user : Tbl
  tweet_at_time : Tbl
  directly_collected_tweet : Tbl
  tweet_hashtag : Tbl
  tweet_cashtag : Tbl
  tweet_mention : Tbl
  url : Tbl
  tweet_url : Tbl
  poll : Tbl
  poll_option : Tbl
  place : Tbl
  media : Tbl
  tweet_media : Tbl
  domain : Tbl
  entity : Tbl
  tweet_entity_domain : Tbl
  metadata : Tbl
deriving DecidableEq, Repr

def DB.get (db : DB) : Table → Tbl
  | .collection_context => db.collection_context
  | .user_at_time => db.user_at_time
  | .directly_collected_user => db.directly_collected_user
  | .tweet_at_time => db.tweet_at_time
  | .directly_collected_tweet => db.directly_collected_tweet
  | .tweet_hashtag => db.tweet_hashtag
  | .tweet_cashtag => db.tweet_cashtag
  | .tweet_mention => db.tweet_mention
  | .url => db.url
  | .tweet_url => db.tweet_url
  | .poll => db.poll
  | .poll_option => db.poll_option
  | .place => db.place
  | .media => db.media
  | .tweet_media => db.tweet_media
  | .domain => db.domain
  | .entity => db.entity
  | .tweet_entity_domain => db.tweet_entity_domain
  | .metadata => db.metadata

def DB.set (db : DB) : Table → Tbl → DB
  | .collection_context, x => { db with collection_context := x }
  | .user_at_time, x => { db with user_at_time := x }
  | .directly_collected_user, x => { db with directly_collected_user := x }
  | .tweet_at_time, x => { db with tweet_at_time := x }
  | .directly_collected_tweet, x => { db with directly_collected_tweet := x }
  | .tweet_hashtag, x => { db with tweet_hashtag := x }
  | .tweet_cashtag, x => { db with tweet_cashtag := x }
  | .tweet_mention, x => { db with tweet_mention := x }
  | .url, x => { db with url := x }
  | .tweet_url, x => { db with tweet_url := x }
  | .poll, x => { db with poll := x }
  | .poll_option, x => { db with poll_option := x }
  | .place, x => { db with place := x }
  | .media, x => { db with media := x }
  | .tweet_media, x => { db with tweet_media := x }
  | .domain, x => { db with domain := x }
  | .entity, x => { db with entity := x }
  | .tweet_entity_domain, x => { db with tweet_entity_domain := x }
  | .metadata, x => { db with metadata := x }

/-- The state of a store straight after `ensure_db` installs the schema: all
tables empty except the `metadata` schema-version stamp inserted by the final
DDL statement (`insert or ignore into metadata
values('twittersphere_schema_version', 12)`). -/
def freshInstalled : DB :=
  { collection_context := [], user_at_time := [], directly_collected_user := []
    tweet_at_time := [], directly_collected_tweet := [], tweet_hashtag := []
    tweet_cashtag := [], tweet_mention := [], url := [], tweet_url := []
    poll := [], poll_option := [], place := [], media := [], tweet_media := []
    domain := [], entity := [], tweet_entity_domain := []
    metadata := [["twittersphere_schema_version", "12"]] }

deriving instance DecidableEq for Except

/-- Python dicts of string values (decoded JSON fields bound into SQL
statements): association lists with first-match lookup. -/
abbrev Dict := List (String × String)

/-- Dict lookup, `none` modelling a raised `KeyError` / missing named bind
parameter when the key is consumed. -/
def dlookup (d : Dict) (k : String) : Option String :=
  (d.find? (fun kv => kv.1 = k)).map (fun kv => kv.2)

/-- Python `a | b` dict merge (right operand wins); with first-match lookup
this is list append with `b` in front. -/
def dictOr (a b : Dict) : Dict := b ++ a

/-- A decoded tweet as produced by `process.TWEET_SPEC`: scalar fields in one
dict, plus the list-valued keys the spec always populates (glom `Coalesce`
defaults them to `[]`). -/
structure TweetRec where
  fields : Dict
  media_keys : List String
  hashtags : List String
  cashtags : List String
  mentions : List Dict
  urls : List Dict
  context_annotations : List Dict
deriving DecidableEq, Repr

/-- A decoded poll as produced by `process.POLL_SPEC`: scalar fields plus the
`options` list. -/
structure PollRec where
  fields : Dict
  options : List Dict
deriving DecidableEq, Repr

/-- One decoded page bundle, the shape produced by `process.PAGE_SPEC`:
`metadata` from the `__twarc` block, the primary `data` payload (users or
tweets, marking direct collection) and the `includes` sub-bundle. -/
structure Bundle where
  data_users : List Dict
  data_tweets : List TweetRec
  includes_users : List Dict
  includes_tweets : List TweetRec
  includes_polls : List PollRec
  includes_places : List Dict
  includes_media : List Dict
  metadata : Dict
deriving DecidableEq, Repr

/-- Bind the named parameters of an insert statement from a dict, in column
order; `none` when a parameter is missing (the statement raises). -/
def projRow (d : Dict) (names : List String) : Option Row := names.mapM (dlookup d)

/-- One `executemany` call: the target table and, for each element the
generator yields, either its bound row or `none` for a raised exception. -/
abbrev Stmt := Table × List (Option Row)

/-- The bind-parameter names of the `user_at_time` insert in
`insert_processed`, in the order they appear in the statement. -/
def userInsertCols : List String :=
  ["id", "context_id", "retrieved_at", "name", "profile_image_url",
   "created_at", "protected", "description", "location", "pinned_tweet_id",
   "verified", "url", "username", "followers_count", "following_count",
   "tweet_count", "listed_count", "withheld_country_codes"]

/-- The bind-parameter names of the `tweet_at_time` insert in
`insert_processed`. -/
def tweetInsertCols : List String :=
  ["id", "context_id", "author_id", "created_at", "retrieved_at",
   "conversation_id", "retweeted", "quoted", "replied", "text", "lang",
   "source", "possibly_sensitive", "reply_settings", "like_count",
   "quote_count", "reply_count", "retweet_count", "withheld_copyright",
   "withheld_country_codes", "poll_id", "place_id"]

/-- The multi-table fan-out of `insert_processed` after the collection
context step, as data: one entry per `executemany` statement, in source
order.  `meta` is the page metadata dict after `metadata["context_id"]` has
been assigned. -/
def bundleStmts (b : Bundle) (meta : Dict) : List Stmt :=
  let users := b.data_users ++ b.includes_users
  let tweets := b.data_tweets ++ b.includes_tweets
  let ra := dlookup meta "retrieved_at"
  [(.user_at_time, users.map fun u => projRow (dictOr u meta) userInsertCols),
   (.directly_collected_user, b.data_users.map fun u => projRow u ["id"]),
   (.tweet_at_time, tweets.map fun tw => projRow (dictOr tw.fields meta) tweetInsertCols),
   (.tweet_media, tweets.flatMap fun tw => tw.media_keys.map fun k => do
      pure [← dlookup tw.fields "id", ← ra, k]),
   (.tweet_hashtag, tweets.flatMap fun tw => tw.hashtags.map fun h => do
      pure [← dlookup tw.fields "id", ← ra, h]),
   (.tweet_cashtag, tweets.flatMap fun tw => tw.cashtags.map fun c => do
      pure [← dlookup tw.fields "id", ← ra, c]),
   (.tweet_mention, tweets.flatMap fun tw => tw.mentions.map fun m => do
      pure [← dlookup tw.fields "id", ← ra, ← dlookup m "user_id", ← dlookup m "username"]),
   (.url, tweets.flatMap fun tw => tw.urls.map fun u =>
      projRow (dictOr u meta)
        ["url", "retrieved_at", "description", "display_url", "expanded_url",
         "images", "media_key", "status", "title", "unwound_url"]),
   -- The source builds the tuple (url["url"], retrieved_at, tweet["id"]) and
   -- sqlite3 binds sequence parameters positionally, so the url value lands
   -- in the tweet_id column and vice versa; embedded as built.
   (.tweet_url, tweets.flatMap fun tw => tw.urls.map fun u => do
      pure [← dlookup u "url", ← ra, ← dlookup tw.fields "id"]),
   (.directly_collected_tweet, b.data_tweets.map fun tw => projRow tw.fields ["id"]),
   (.tweet_entity_domain, tweets.flatMap fun tw => tw.context_annotations.map fun an => do
      pure [← dlookup tw.fields "id", ← ra, ← dlookup an "entity_id", ← dlookup an "domain_id"]),
   (.entity, tweets.flatMap fun tw => tw.context_annotations.map fun an =>
      projRow an ["entity_id", "entity_name", "entity_description"]),
   (.domain, tweets.flatMap fun tw => tw.context_annotations.map fun an =>
      projRow an ["domain_id", "domain_name", "domain_description"]),
   (.poll, b.includes_polls.map fun p => projRow (dictOr p.fields meta)
      ["id", "retrieved_at", "duration_minutes", "end_datetime", "voting_status"]),
   (.poll_option, b.includes_polls.flatMap fun p => p.options.map fun o =>
      projRow (dictOr (dictOr o p.fields) meta)
        ["id", "retrieved_at", "position", "label", "votes"]),
   (.place, b.includes_places.map fun pl => projRow pl
      ["id", "country", "country_code", "full_name", "geo_type", "geo_bbox_1",
       "geo_bbox_2", "geo_bbox_3", "geo_bbox_4", "name", "place_type"]),
   (.media, b.includes_media.map fun m => projRow (dictOr m meta)
      ["media_key", "retrieved_at", "alt_text", "duration_ms",
       "preview_image_url", "view_count", "type", "url", "width", "height"])]

/-- Run one `executemany`: rows are inserted one by one as the generator is
consumed; a `none` raises, leaving the rows already stepped in place. -/
def runStmtRows (t : Table) : List (Option Row) → DB → Except DB DB
  | [], db => .ok db
  | none :: _, db => .error db
  | some r :: rest, db => runStmtRows t rest (db.set t (insertOrIgnore t (db.get t) r))

/-- Run the statement list of one bundle in order, propagating the first
exception together with the partially updated connection state. -/
def runStmts : List Stmt → DB → Except DB DB
  | [], db => .ok db
  | (t, rows) :: rest, db =>
    match runStmtRows t rows db with
    | .error e => .error e
    | .ok db' => runStmts rest db'

/-- The metadata triple bound into the `collection_context` insert. -/
def metaTriple (meta : Dict) : Option Row :=
  projRow meta ["retrieved_at", "twitter_url", "twarc_version"]

/-- The `insert or ignore into collection_context(...)` statement: the
insert omits `context_id`, so it can only collide with the
`unique (retrieved_at, twitter_url, twarc_version)` constraint; SQLite
assigns the omitted surrogate id the next rowid, modelled as `length + 1`
(staging context tables are append-only from empty). -/
def ctxInsert (tbl : Tbl) (triple : Row) : Tbl :=
  if tbl.any (fun old => old.drop 1 = triple) then tbl
  else tbl ++ [toString (tbl.length + 1) :: triple]

/-- The collection-context step of `insert_processed`: look up-or-create the
surrogate `context_id` for the page's (retrieved_at, twitter_url,
twarc_version) triple.  The trailing `select`'s `list(...)[0][0]` is
modelled by `find?`; an empty result raises. -/
def insertContext (db : DB) (meta : Dict) : Except DB (DB × String) :=
  match metaTriple meta with
  | none => .error db
  | some triple =>
    let tbl' := ctxInsert (db.get .collection_context) triple
    let db' := db.set .collection_context tbl'
    match tbl'.find? (fun r => r.drop 1 = triple) with
    | some r => .ok (db', r.headD "")
    | none => .error db'

/-- `db.insert_processed`: apply one decoded bundle to the open store.
Collection context first, then the statement fan-out of `bundleStmts` in
source order.  There is no savepoint in the source: on an exception the rows
already applied remain in the connection's open transaction, which the
`.error` state captures. -/
def insert_processed (db : DB) (b : Bundle) : Except DB DB :=
  match insertContext db b.metadata with
  | .error e => .error e
  | .ok (db1, cid) => runStmts (bundleStmts b (("context_id", cid) :: b.metadata)) db1

/-- The single-writer drain loop of `insert_pages` (db.py lines 131-134 and
165-168): apply decoded bundles to the staging store one after another,
aborting on the first failing bundle. -/
def apply_bundles : List Bundle → DB → Except DB DB
  | [], db => .ok db
  | b :: bs, db =>
    match insert_processed db b with
    | .error e => .error e
    | .ok db' => apply_bundles bs db'

/-! ### Schema guard (`db.ensure_db`) -/

/-- `_schema.CURRENT_SCHEMA_VERSION`. -/
def CURRENT_SCHEMA_VERSION : Int := 12

/-- An on-disk store as seen by the schema guard: which tables exist, the
`metadata` key/value rows (values are SQLite-typed; the version is stored as
an integer) and the journal mode. -/
structure Store where
  tables : List String
  meta : List (String × Int)
  wal : Bool
deriving DecidableEq, Repr

/-- The two exceptions `ensure_db` can raise: its own `SchemaVersionError`,
and the `IndexError` escaping from `list(...)[0][0]` when the metadata table
exists but holds no version row (only `sqlite3.OperationalError` is caught). -/
inductive EnsureErr
  | schemaVersionError
  | indexError
deriving DecidableEq, Repr

/-- Running `_schema.SCHEMA_STATEMENTS` on a store: `create table if not
exists` for each DDL table, `insert or ignore` of the version stamp, with the
`pragma journal_mode=WAL` executed just before. -/
def installSchema (s : Store) : Store :=
  { tables := s.tables ++ schema_created_tables.filter (fun t => ¬ t ∈ s.tables)
    meta :=
      if s.meta.any (fun kv => kv.1 = "twittersphere_schema_version") then s.meta
      else s.meta ++ [("twittersphere_schema_version", CURRENT_SCHEMA_VERSION)]
    wal := true }

/-- `db.ensure_db`: read the stored schema version (a missing `metadata`
table raises `OperationalError`, caught and treated as version 0; a present
table with no version row raises an uncaught `IndexError`); version 0 runs
the migrations; a nonzero version unequal to the compiled-in one raises
`SchemaVersionError` with the store untouched. -/
def ensure_db (s : Store) : Except (EnsureErr × Store) Store :=
  if "metadata" ∈ s.tables then
    match (s.meta.find? (fun kv => kv.1 = "twittersphere_schema_version")).map (fun kv => kv.2) with
    | none => .error (.indexError, s)
    | some v =>
      if v = 0 then .ok (installSchema s)
      else if v ≠ CURRENT_SCHEMA_VERSION then .error (.schemaVersionError, s)
      else .ok s
  else
    .ok (installSchema s)

/-! ### Flush (`db.flush_db`) -/

/-- Key order used by `order by {primary_key}`: compare the key projections
columnwise, strings ordered by their character codes. -/
def rowLE (t : Table) (a b : Row) : Prop :=
  (rowKey t a).map (fun s => s.data.map Char.toNat) ≤
    (rowKey t b).map (fun s => s.data.map Char.toNat)

instance (t : Table) : DecidableRel (rowLE t) := fun a b => by
  unfold rowLE; infer_instance

instance (t : Table) : IsTotal Row (rowLE t) := ⟨fun _ _ => le_total _ _⟩

instance (t : Table) : IsTrans Row (rowLE t) := ⟨fun _ _ _ h1 h2 => le_trans h1 h2⟩

/-- `select * from main.{table} order by {primary_key}`: the staging rows in
ascending primary-key order. -/
def sortRows (t : Table) (rows : Tbl) : Tbl := List.insertionSort (rowLE t) rows

/-- The per-table merge statement of `flush_db`: insert the staging rows into
the target table in ascending primary-key order, with `insert or ignore`. -/
def mergeTable (t : Table) (stagingRows targetTbl : Tbl) : Tbl :=
  (sortRows t stagingRows).foldl (fun acc r => insertOrIgnore t acc r) targetTbl

/-- The tables `flush_db` iterates over: the entries of `_schema.table_keys`
in dict order, resolved to modelled tables. -/
def flushTables : List Table := table_keys.filterMap fun kv => Table.ofName kv.1

/-- `db.flush_db`: iterate over `_schema.table_keys` and merge each listed
table of the staging store into the target. -/
def flush_db (staging target : DB) : DB :=
  flushTables.foldl
    (fun tgt t => tgt.set t (mergeTable t (staging.get t) (tgt.get t)))
    target

/-- The rows `flush_db` feeds to each table's insert statement, in statement
order then row order. -/
def flushTrace (staging : DB) : List (Table × Tbl) :=
  table_keys.filterMap
    (fun kv => (Table.ofName kv.1).map (fun t => (t, sortRows t (staging.get t))))

/-! ### Pipeline (`db.insert_pages`, `process.process_pages`) -/

/-- `process.process_pages`: decode each raw page of a batch in order.  The
page decoder itself (glom's `PAGE_SPEC`) is an external collaborator, taken
as a function argument. -/
def process_pages (decode : String → Bundle) (raw_pages : List String) : List Bundle :=
  raw_pages.map decode

/-- Batch dispatch threshold of `insert_pages` (1 MiB of raw content). -/
def MIN_BATCH_SIZE : Nat := 2 ^ 20

/-- In-flight futures bookkeeping of the `insert_pages` writer loop, counts
only (used for the backpressure claim).  `futures` is the number of
submitted-but-undrained batches, `maxInFlight` the high-water mark. -/
structure SimState where
  futures : Nat
  batchSize : Nat
  maxInFlight : Nat
  waits : Nat
deriving DecidableEq, Repr

/-- One iteration of the `for raw_page in raw_pages` loop, counts only.
`oracle` says how many futures `cf.wait(..., FIRST_COMPLETED)` finds
completed at each wait; the clamp records that it returns at least one and at
most all of them. -/
def simStep (n_cpus : Nat) (oracle : Nat → Nat) (st : SimState) (pageLen : Nat) : SimState :=
  let st1 := { st with batchSize := st.batchSize + pageLen }
  let st2 :=
    if MIN_BATCH_SIZE ≤ st1.batchSize then
      { st1 with
        futures := st1.futures + 1
        batchSize := 0
        maxInFlight := max st1.maxInFlight (st1.futures + 1) }
    else st1
  if n_cpus + 1 < st2.futures then
    let d := min st2.futures (max 1 (oracle st2.waits))
    { st2 with futures := st2.futures - d, waits := st2.waits + 1 }
  else st2

/-- The writer loop of `insert_pages` followed by the final
`pool.submit(process.process_pages, batch)`, counts only. -/
def insertPagesSim (n_cpus : Nat) (oracle : Nat → Nat) (pages : List Nat) : SimState :=
  let st := pages.foldl (simStep n_cpus oracle) ⟨0, 0, 0, 0⟩
  { st with
    futures := st.futures + 1
    maxInFlight := max st.maxInFlight (st.futures + 1) }

/-- The clean-shutdown tail of `insert_pages` (lines 170-175): commit the
staging store, wait for any still-running flush thread, then flush the
current staging generation into the target store. -/
def pipelineShutdown (staging target : DB) : DB := flush_db staging target

/-- Full state of the `insert_pages` writer loop: submitted-but-undrained
decoded batches in submission order, the accumulating raw batch, the staging
store and the durable target store with its flush counter. -/
structure PipeState where
  futures : List (List Bundle)
  batch : List String
  batchSize : Nat
  staging : DB
  target : DB
  flushCount : Nat
  waits : Nat
deriving Repr

/-- One iteration of the `insert_pages` page loop: grow the batch, dispatch
it once it reaches 1 MiB, and when more than `n_cpus + 1` futures are
outstanding drain the completed ones into the staging store, flushing the
staging generation to the target when it crosses `maxSize` (`sizeFn` stands
for the `pragma_page_count * pragma_page_size` probe).  A failing bundle
aborts with the staging state at the failure. -/
def pipeStep (decode : String → Bundle) (oracle : Nat → Nat) (sizeFn : DB → Nat)
    (maxSize n_cpus : Nat) (st : PipeState) (p : String) : Except DB PipeState :=
  let batch' := st.batch ++ [p]
  let size' := st.batchSize + p.length
  let st1 :=
    if MIN_BATCH_SIZE ≤ size' then
      { st with
        futures := st.futures ++ [process_pages decode batch']
        batch := []
        batchSize := 0 }
    else { st with batch := batch', batchSize := size' }
  if n_cpus + 1 < st1.futures.length then
    let d := min st1.futures.length (max 1 (oracle st1.waits))
    match apply_bundles ((st1.futures.take d).flatMap id) st1.staging with
    | .error e => .error e
    | .ok stg =>
      if maxSize ≤ sizeFn stg then
        .ok { st1 with
              futures := st1.futures.drop d
              waits := st1.waits + 1
              staging := freshInstalled
              target := flush_db stg st1.target
              flushCount := st1.flushCount + 1 }
      else
        .ok { st1 with
              futures := st1.futures.drop d
              waits := st1.waits + 1
              staging := stg }
  else .ok st1

/-- Fold `pipeStep` over the page stream. -/
def pipeLoop (decode : String → Bundle) (oracle : Nat → Nat) (sizeFn : DB → Nat)
    (maxSize n_cpus : Nat) : List String → PipeState → Except DB PipeState
  | [], st => .ok st
  | p :: ps, st =>
    match pipeStep decode oracle sizeFn maxSize n_cpus st p with
    | .error e => .error e
    | .ok st' => pipeLoop decode oracle sizeFn maxSize n_cpus ps st'

/-- `db.insert_pages`: run the page loop from a fresh in-memory staging
store, then submit the final (possibly empty) batch, drain every outstanding
future into the staging store, and flush it into the target.  Returns the
final target store and the number of flushes run.  `t0` is the target store
after the initial `ensure_db` check. -/
def insert_pages (decode : String → Bundle) (oracle : Nat → Nat) (sizeFn : DB → Nat)
    (maxSize n_cpus : Nat) (pages : List String) (t0 : DB) : Except DB (DB × Nat) :=
  match pipeLoop decode oracle sizeFn maxSize n_cpus pages
      { futures := [], batch := [], batchSize := 0, staging := freshInstalled
        target := t0, flushCount := 0, waits := 0 } with
  | .error e => .error e
  | .ok st =>
    let futures := st.futures ++ [process_pages decode st.batch]
    match apply_bundles (futures.flatMap id) st.staging with
    | .error e => .error e
    | .ok stg => .ok (pipelineShutdown stg st.target, st.flushCount + 1)

/-! ### Helper definitions and concrete fixtures used by the theorems -/

/-- The connection state an `Except DB DB` computation left behind, whether
it returned normally or raised. -/
def outDB : Except DB DB → DB
  | .ok db => db
  | .error db => db

/-- The value of the `twittersphere_schema_version` metadata key of a store,
if the row exists. -/
def storedVersion (s : Store) : Option Int :=
  (s.meta.find? (fun kv => kv.1 = "twittersphere_schema_version")).map (fun kv => kv.2)

/-- Store monotonicity: every table only ever grows at its end (rows are
neither updated nor deleted). -/
def DB.Ext (db db' : DB) : Prop := ∀ t, ∃ u, db'.get t = db.get t ++ u

/-- No two distinct rows of the `collection_context` table share a metadata
triple (invariant of every staging store reached by the ingestion fold). -/
def CtxUnique (db : DB) : Prop :=
  (db.get .collection_context).Pairwise fun r1 r2 => r1.drop 1 ≠ r2.drop 1

/-- A bundle is fully applied in a store: its collection context row exists
and every row of its statement fan-out (built with that row's surrogate id)
collides with a stored row, so re-running it is a no-op. -/
def BundleApplied (db : DB) (b : Bundle) : Prop :=
  ∃ triple r, metaTriple b.metadata = some triple ∧
    r ∈ db.get .collection_context ∧ r.drop 1 = triple ∧
    ∀ p ∈ bundleStmts b (("context_id", r.headD "") :: b.metadata),
      ∀ orow ∈ p.2, ∃ row, orow = some row ∧
        ∃ old ∈ db.get p.1, rowConflict p.1 old row = true

/-- Page metadata fixture: the `__twarc` block decoded by `METADATA_SPEC`. -/
def mkMeta (t : String) : Dict :=
  [("retrieved_at", t), ("twitter_url", "u"), ("twarc_version", "v")]

/-- A fully populated decoded user dict (all `USER_SPEC` keys). -/
def mkUser (uid nm : String) : Dict :=
  [("id", uid), ("name", nm), ("profile_image_url", "p"), ("created_at", "c"),
   ("protected", "0"), ("description", "d"), ("location", "l"),
   ("pinned_tweet_id", "0"), ("verified", "0"), ("url", "u"), ("username", "un"),
   ("followers_count", "1"), ("following_count", "2"), ("tweet_count", "3"),
   ("listed_count", "4"), ("withheld_country_codes", "w")]

/-- A fully populated decoded tweet (all `TWEET_SPEC` keys) carrying one
hashtag `"x"`. -/
def mkTweet (tid : String) : TweetRec :=
  { fields :=
      [("id", tid), ("author_id", "7"), ("created_at", "c"),
       ("conversation_id", "9"), ("retweeted", ""), ("quoted", ""),
       ("replied", ""), ("text", "hello"), ("lang", "en"), ("source", "s"),
       ("possibly_sensitive", "0"), ("reply_settings", "all"),
       ("like_count", "1"), ("quote_count", "2"), ("reply_count", "3"),
       ("retweet_count", "4"), ("withheld_copyright", "0"),
       ("withheld_country_codes", "w"), ("poll_id", ""), ("place_id", "")]
    media_keys := [], hashtags := ["x"], cashtags := [], mentions := []
    urls := [], context_annotations := [] }

/-- A fully populated decoded place dict (all `PLACE_SPEC` keys). -/
def mkPlace (pid nm : String) : Dict :=
  [("id", pid), ("country", "AU"), ("country_code", "AU"), ("full_name", "f"),
   ("geo_type", "g"), ("geo_bbox_1", "1"), ("geo_bbox_2", "2"),
   ("geo_bbox_3", "3"), ("geo_bbox_4", "4"), ("name", nm), ("place_type", "city")]

/-- The `place` row the place insert binds from `mkPlace pid nm`. -/
def placeRow (pid nm : String) : Row :=
  [pid, "AU", "AU", "f", "g", "1", "2", "3", "4", nm, "city"]

/-- A decoded page with no payload at all (metadata only). -/
def emptyBundle : Bundle :=
  { data_users := [], data_tweets := [], includes_users := []
    includes_tweets := [], includes_polls := [], includes_places := []
    includes_media := [], metadata := mkMeta "t1" }

/-- A page directly collecting one user, retrieved at `t1`. -/
def userBundle : Bundle := { emptyBundle with data_users := [mkUser "7" "alice"] }

/-- The same user observed again at a later retrieval time `t2`. -/
def userBundleLater : Bundle :=
  { emptyBundle with data_users := [mkUser "7" "alice2"], metadata := mkMeta "t2" }

/-- The staging store after ingesting `userBundle` into a fresh store. -/
def userDB : DB :=
  { freshInstalled with
    collection_context := [["1", "t1", "u", "v"]]
    user_at_time :=
      [["7", "1", "t1", "alice", "p", "c", "0", "d", "l", "0", "0", "u", "un",
        "1", "2", "3", "4", "w"]]
    directly_collected_user := [["7"]] }

/-- A malformed page: a valid directly collected user followed by a place
dict missing every `PLACE_SPEC` key except `id`, so the place insert raises
after the user insert has already run. -/
def badBundle : Bundle :=
  { emptyBundle with
    data_users := [mkUser "7" "alice"]
    includes_places := [[("id", "p1")]] }

/-- Pages 1-3 of the duplicate-post scenario: pages 1 and 2 were retrieved at
the same instant and both carry post 100 with hashtag `"x"`; page 3 carries a
different post. -/
def dupPage1 : Bundle := { emptyBundle with data_tweets := [mkTweet "100"] }

/-- Page 2: repeats post 100 (same retrieval instant `t1`). -/
def dupPage2 : Bundle := { emptyBundle with data_tweets := [mkTweet "100"] }

/-- Page 3: a different post at the same retrieval instant. -/
def dupPage3 : Bundle := { emptyBundle with data_tweets := [mkTweet "101"] }

/-- Place 1 observed at `t1` with name `"A"`. -/
def placeBundleA : Bundle := { emptyBundle with includes_places := [mkPlace "1" "A"] }

/-- Place 1 observed at the later instant `t2` with its name changed to
`"B"`: a second version of the same logical entity. -/
def placeBundleB : Bundle :=
  { emptyBundle with includes_places := [mkPlace "1" "B"], metadata := mkMeta "t2" }

/-- A target store that already holds place 1 with name `"A"` (flushed by an
earlier generation or run). -/
def targetWithA : DB := { freshInstalled with place := [placeRow "1" "A"] }

/-- A store stamped with schema version 0. -/
def verZeroStore : Store :=
  { tables := ["metadata"], meta := [("twittersphere_schema_version", 0)], wal := false }

/-- A store stamped with the future/unknown schema version 13. -/
def ver13Store : Store :=
  { tables := ["metadata"], meta := [("twittersphere_schema_version", 13)], wal := false }

/-- A store whose `metadata` table exists but holds no version row. -/
def missingKeyStore : Store := { tables := ["metadata"], meta := [], wal := false }

/-- A brand-new store: no tables at all. -/
def blankStore : Store := { tables := [], meta := [], wal := false }

/-- A store stamped with the current schema version. -/
def stampedStore : Store :=
  { tables := ["metadata"], meta := [("twittersphere_schema_version", 12)], wal := false }

/-! ### Store lemmas -/

theorem DB.get_set_same (db : DB) (t : Table) (x : Tbl) : (db.set t x).get t = x := by
  cases t <;> rfl

theorem DB.get_set_ne (db : DB) {t t' : Table} (h : t' ≠ t) (x : Tbl) :
    (db.set t x).get t' = db.get t' := by
  cases t <;> cases t' <;> first | rfl | exact absurd rfl h

theorem DB.set_get (db : DB) (t : Table) : db.set t (db.get t) = db := by
  cases t <;> rfl

theorem DB.Ext.rfl (db : DB) : DB.Ext db db := fun _ => ⟨[], (List.append_nil _).symm⟩

theorem DB.Ext.trans {a b c : DB} (h1 : DB.Ext a b) (h2 : DB.Ext b c) : DB.Ext a c := by
  intro t
  obtain ⟨u, hu⟩ := h1 t
  obtain ⟨v, hv⟩ := h2 t
  exact ⟨u ++ v, by rw [hv, hu, List.append_assoc]⟩

theorem DB.Ext.mem {a b : DB} {t : Table} {r : Row} (h : DB.Ext a b)
    (hr : r ∈ a.get t) : r ∈ b.get t := by
  obtain ⟨u, hu⟩ := h t
  rw [hu]
  exact List.mem_append_left _ hr

theorem rowConflict_refl (t : Table) (r : Row) : rowConflict t r r = true := by
  unfold rowConflict
  simp

theorem insertOrIgnore_grows (t : Table) (tbl : Tbl) (r : Row) :
    ∃ u, insertOrIgnore t tbl r = tbl ++ u := by
  unfold insertOrIgnore
  split
  · exact ⟨[], (List.append_nil _).symm⟩
  · exact ⟨[r], rfl⟩

theorem mem_insertOrIgnore {x : Row} {tbl : Tbl} (t : Table) (r : Row)
    (h : x ∈ tbl) : x ∈ insertOrIgnore t tbl r := by
  obtain ⟨u, hu⟩ := insertOrIgnore_grows t tbl r
  rw [hu]
  exact List.mem_append_left _ h

theorem insertOrIgnore_of_conflict {t : Table} {tbl : Tbl} {r : Row}
    (h : ∃ old ∈ tbl, rowConflict t old r = true) : insertOrIgnore t tbl r = tbl := by
  unfold insertOrIgnore
  rw [if_pos]
  rw [List.any_eq_true]
  obtain ⟨old, h1, h2⟩ := h
  exact ⟨old, h1, h2⟩

theorem insertOrIgnore_conflict_mem (t : Table) (tbl : Tbl) (r : Row) :
    ∃ old ∈ insertOrIgnore t tbl r, rowConflict t old r = true := by
  unfold insertOrIgnore
  split
  · next h =>
    obtain ⟨old, h1, h2⟩ := List.any_eq_true.mp h
    exact ⟨old, h1, h2⟩
  · exact ⟨r, List.mem_append_right _ (List.mem_singleton.mpr rfl), rowConflict_refl t r⟩

theorem insertOrIgnore_mem_new {t : Table} {tbl : Tbl} {r : Row}
    (h : ∀ old ∈ tbl, rowConflict t old r = false) : r ∈ insertOrIgnore t tbl r := by
  unfold insertOrIgnore
  rw [if_neg]
  · exact List.mem_append_right _ (List.mem_singleton.mpr rfl)
  · intro hany
    obtain ⟨old, h1, h2⟩ := List.any_eq_true.mp hany
    rw [h old h1] at h2
    cases h2

/-! ### Statement runner lemmas -/

theorem runStmtRows_ext (t : Table) (rows : List (Option Row)) (db : DB) :
    DB.Ext db (outDB (runStmtRows t rows db)) := by
  induction rows generalizing db with
  | nil => exact DB.Ext.rfl db
  | cons hd tl ih =>
    cases hd with
    | none => exact DB.Ext.rfl db
    | some r =>
      refine DB.Ext.trans (fun t' => ?_) (ih (db.set t (insertOrIgnore t (db.get t) r)))
      by_cases he : t' = t
      · subst he
        rw [DB.get_set_same]
        exact insertOrIgnore_grows t' (db.get t') r
      · rw [DB.get_set_ne db he]
        exact ⟨[], (List.append_nil _).symm⟩

theorem runStmts_ext (ss : List Stmt) (db : DB) :
    DB.Ext db (outDB (runStmts ss db)) := by
  induction ss generalizing db with
  | nil => exact DB.Ext.rfl db
  | cons hd tl ih =>
    obtain ⟨t, rows⟩ := hd
    show DB.Ext db (outDB (match runStmtRows t rows db with
      | .error e => .error e
      | .ok db' => runStmts tl db'))
    cases hrun : runStmtRows t rows db with
    | error e =>
      have := runStmtRows_ext t rows db
      rw [hrun] at this
      exact this
    | ok db' =>
      have h1 := runStmtRows_ext t rows db
      rw [hrun] at h1
      exact DB.Ext.trans h1 (ih db')

theorem runStmtRows_ok_applied {t : Table} {rows : List (Option Row)} {db db' : DB}
    (h : runStmtRows t rows db = .ok db') :
    DB.Ext db db' ∧ ∀ orow ∈ rows, ∃ row, orow = some row ∧
      ∃ old ∈ db'.get t, rowConflict t old row = true := by
  induction rows generalizing db with
  | nil =>
    cases h
    exact ⟨DB.Ext.rfl db', by simp⟩
  | cons hd tl ih =>
    cases hd with
    | none => cases h
    | some r =>
      obtain ⟨hext, happ⟩ := ih h
      have hstep : DB.Ext db (db.set t (insertOrIgnore t (db.get t) r)) := by
        intro t'
        by_cases he : t' = t
        · subst he
          rw [DB.get_set_same]
          exact insertOrIgnore_grows t' (db.get t') r
        · rw [DB.get_set_ne db he]
          exact ⟨[], (List.append_nil _).symm⟩
      refine ⟨DB.Ext.trans hstep hext, ?_⟩
      intro orow ho
      rcases List.mem_cons.mp ho with he | htl
      · subst he
        obtain ⟨old, hmem, hcf⟩ := insertOrIgnore_conflict_mem t (db.get t) r
        refine ⟨r, rfl, old, ?_, hcf⟩
        have : old ∈ (db.set t (insertOrIgnore t (db.get t) r)).get t := by
          rw [DB.get_set_same]; exact hmem
        exact hext.mem this
      · exact happ orow htl

theorem runStmtRows_noop {t : Table} {rows : List (Option Row)} {db : DB}
    (h : ∀ orow ∈ rows, ∃ row, orow = some row ∧
      ∃ old ∈ db.get t, rowConflict t old row = true) :
    runStmtRows t rows db = .ok db := by
  induction rows with
  | nil => rfl
  | cons hd tl ih =>
    obtain ⟨row, hrow, old, hmem, hcf⟩ := h hd (List.mem_cons_self hd tl)
    cases hd with
    | none => cases hrow
    | some r =>
      have hr : r = row := by injection hrow
      subst hr
      show runStmtRows t tl (db.set t (insertOrIgnore t (db.get t) r)) = .ok db
      rw [insertOrIgnore_of_conflict ⟨old, hmem, hcf⟩, DB.set_get]
      exact ih fun orow ho => h orow (List.mem_cons_of_mem _ ho)

theorem runStmts_ok_applied {ss : List Stmt} {db db' : DB}
    (h : runStmts ss db = .ok db') :
    DB.Ext db db' ∧ ∀ p ∈ ss, ∀ orow ∈ p.2, ∃ row, orow = some row ∧
      ∃ old ∈ db'.get p.1, rowConflict p.1 old row = true := by
  induction ss generalizing db with
  | nil =>
    cases h
    exact ⟨DB.Ext.rfl db', by simp⟩
  | cons hd tl ih =>
    obtain ⟨t, rows⟩ := hd
    revert h
    show (match runStmtRows t rows db with
      | .error e => Except.error e
      | .ok db1 => runStmts tl db1) = .ok db' → _
    cases hrun : runStmtRows t rows db with
    | error e => intro hc; cases hc
    | ok db1 =>
      intro htl
      obtain ⟨hext1, happ1⟩ := runStmtRows_ok_applied hrun
      obtain ⟨hext2, happ2⟩ := ih htl
      refine ⟨DB.Ext.trans hext1 hext2, ?_⟩
      intro p hp orow ho
      rcases List.mem_cons.mp hp with he | hmem
      · subst he
        obtain ⟨row, hrw, old, hold, hcf⟩ := happ1 orow ho
        exact ⟨row, hrw, old, hext2.mem hold, hcf⟩
      · exact happ2 p hmem orow ho

theorem runStmts_noop {ss : List Stmt} {db : DB}
    (h : ∀ p ∈ ss, ∀ orow ∈ p.2, ∃ row, orow = some row ∧
      ∃ old ∈ db.get p.1, rowConflict p.1 old row = true) :
    runStmts ss db = .ok db := by
  induction ss with
  | nil => rfl
  | cons hd tl ih =>
    obtain ⟨t, rows⟩ := hd
    show (match runStmtRows t rows db with
      | .error e => Except.error e
      | .ok db1 => runStmts tl db1) = .ok db
    rw [runStmtRows_noop (h (t, rows) (List.mem_cons_self _ tl))]
    exact ih fun p hp => h p (List.mem_cons_of_mem _ hp)

/-! ### Collection-context invariant lemmas -/

theorem rowConflict_cc_false {old r : Row}
    (h : rowConflict .collection_context old r = false) : old.drop 1 ≠ r.drop 1 := by
  unfold rowConflict at h
  by_cases hk : rowKey .collection_context old = rowKey .collection_context r
  · rw [if_pos hk] at h
    cases h
  · rw [if_neg hk] at h
    exact of_decide_eq_false h

theorem ctxUnique_insertOrIgnore {db : DB} (t : Table) (r : Row) (hu : CtxUnique db) :
    CtxUnique (db.set t (insertOrIgnore t (db.get t) r)) := by
  unfold CtxUnique
  by_cases he : t = Table.collection_context
  · subst he
    rw [DB.get_set_same]
    unfold insertOrIgnore
    split
    · exact hu
    · next hnoc =>
      rw [List.pairwise_append]
      refine ⟨hu, List.pairwise_singleton _ _, ?_⟩
      intro a ha b hb
      rw [List.mem_singleton.mp hb]
      have : rowConflict Table.collection_context a r = false := by
        cases hc : rowConflict Table.collection_context a r
        · rfl
        · exact absurd (List.any_eq_true.mpr ⟨a, ha, hc⟩) hnoc
      exact rowConflict_cc_false this
  · rw [DB.get_set_ne db fun hc => he hc.symm]
    exact hu

theorem ctxUnique_runStmtRows {t : Table} {rows : List (Option Row)} {db : DB}
    (hu : CtxUnique db) : CtxUnique (outDB (runStmtRows t rows db)) := by
  induction rows generalizing db with
  | nil => exact hu
  | cons hd tl ih =>
    cases hd with
    | none => exact hu
    | some r => exact ih (ctxUnique_insertOrIgnore t r hu)

theorem ctxUnique_runStmts {ss : List Stmt} {db : DB}
    (hu : CtxUnique db) : CtxUnique (outDB (runStmts ss db)) := by
  induction ss generalizing db with
  | nil => exact hu
  | cons hd tl ih =>
    obtain ⟨t, rows⟩ := hd
    show CtxUnique (outDB (match runStmtRows t rows db with
      | .error e => .error e
      | .ok db' => runStmts tl db'))
    cases hrun : runStmtRows t rows db with
    | error e =>
      have h1 : CtxUnique (outDB (runStmtRows t rows db)) := ctxUnique_runStmtRows hu
      rw [hrun] at h1
      exact h1
    | ok db1 =>
      have h1 : CtxUnique (outDB (runStmtRows t rows db)) := ctxUnique_runStmtRows hu
      rw [hrun] at h1
      exact ih h1

theorem ctxInsert_grows (tbl : Tbl) (triple : Row) :
    ∃ u, ctxInsert tbl triple = tbl ++ u := by
  unfold ctxInsert
  split
  · exact ⟨[], (List.append_nil _).symm⟩
  · exact ⟨_, rfl⟩

theorem ctxInsert_pairwise {tbl : Tbl} {triple : Row}
    (hu : tbl.Pairwise fun r1 r2 => r1.drop 1 ≠ r2.drop 1) :
    (ctxInsert tbl triple).Pairwise fun r1 r2 => r1.drop 1 ≠ r2.drop 1 := by
  unfold ctxInsert
  split
  · exact hu
  · next hnone =>
    rw [List.pairwise_append]
    refine ⟨hu, List.pairwise_singleton _ _, ?_⟩
    intro a ha b hb
    rw [List.mem_singleton.mp hb]
    intro hcontra
    refine hnone (List.any_eq_true.mpr ⟨a, ha, decide_eq_true ?_⟩)
    simpa using hcontra

theorem find?_triple_unique {tbl : Tbl} {triple r : Row}
    (hu : tbl.Pairwise fun r1 r2 => r1.drop 1 ≠ r2.drop 1)
    (hr : r ∈ tbl) (ht : r.drop 1 = triple) :
    tbl.find? (fun x => x.drop 1 = triple) = some r := by
  induction tbl with
  | nil => cases hr
  | cons hd tl ih =>
    obtain ⟨hhd, htl⟩ := List.pairwise_cons.mp hu
    rcases List.mem_cons.mp hr with he | hmem
    · subst he
      simp [List.find?, ht]
    · have hne : hd.drop 1 ≠ triple := fun hc => hhd r hmem (hc.trans ht.symm)
      have hdec : decide (hd.drop 1 = triple) = false := decide_eq_false hne
      simp only [List.find?, hdec]
      exact ih htl hmem

/-! ### insert_processed lemmas -/

theorem insertContext_ok {db : DB} {meta : Dict} {db1 : DB} {cid : String}
    (h : insertContext db meta = .ok (db1, cid)) :
    DB.Ext db db1 ∧ (CtxUnique db → CtxUnique db1) ∧
      ∃ triple r, metaTriple meta = some triple ∧
        r ∈ db1.get .collection_context ∧ r.drop 1 = triple ∧ r.headD "" = cid := by
  unfold insertContext at h
  cases hmt : metaTriple meta with
  | none => rw [hmt] at h; cases h
  | some triple =>
    rw [hmt] at h
    simp only [] at h
    cases hf : (ctxInsert (db.get .collection_context) triple).find?
        (fun r => r.drop 1 = triple) with
    | none => rw [hf] at h; cases h
    | some r =>
      rw [hf] at h
      injection h with h
      injection h with h1 h2
      obtain ⟨u, hu⟩ := ctxInsert_grows (db.get .collection_context) triple
      have hext : DB.Ext db (db.set .collection_context (ctxInsert (db.get .collection_context) triple)) := by
        intro t'
        by_cases he : t' = Table.collection_context
        · subst he
          rw [DB.get_set_same, hu]
          exact ⟨u, rfl⟩
        · rw [DB.get_set_ne db he]
          exact ⟨[], (List.append_nil _).symm⟩
      subst h1
      refine ⟨hext, ?_, triple, r, rfl, ?_, ?_, h2⟩
      · intro huq
        unfold CtxUnique
        rw [DB.get_set_same]
        exact ctxInsert_pairwise huq
      · rw [DB.get_set_same]
        exact List.mem_of_find?_eq_some hf
      · have := List.find?_some hf
        exact of_decide_eq_true this

theorem insertContext_noop {db : DB} {meta : Dict} {triple r : Row}
    (hu : CtxUnique db) (hmt : metaTriple meta = some triple)
    (hr : r ∈ db.get .collection_context) (ht : r.drop 1 = triple) :
    insertContext db meta = .ok (db, r.headD "") := by
  unfold insertContext
  rw [hmt]
  simp only []
  have hins : ctxInsert (db.get .collection_context) triple = db.get .collection_context := by
    unfold ctxInsert
    rw [if_pos]
    exact List.any_eq_true.mpr ⟨r, hr, decide_eq_true ht⟩
  rw [hins, DB.set_get, find?_triple_unique hu hr ht]

theorem insert_processed_ok {db : DB} {b : Bundle} {db' : DB}
    (hu : CtxUnique db) (h : insert_processed db b = .ok db') :
    DB.Ext db db' ∧ CtxUnique db' ∧ BundleApplied db' b := by
  unfold insert_processed at h
  cases hic : insertContext db b.metadata with
  | error e => rw [hic] at h; cases h
  | ok pr =>
    obtain ⟨db1, cid⟩ := pr
    rw [hic] at h
    have h2 : runStmts (bundleStmts b (("context_id", cid) :: b.metadata)) db1 = .ok db' := h
    obtain ⟨hext1, huq1, triple, r, hmt, hrmem, hrt, hrcid⟩ := insertContext_ok hic
    obtain ⟨hext2, happ⟩ := runStmts_ok_applied h2
    have huq2 : CtxUnique db' := by
      have hx : CtxUnique (outDB (runStmts (bundleStmts b (("context_id", cid) :: b.metadata)) db1)) :=
        ctxUnique_runStmts (huq1 hu)
      rw [h2] at hx
      exact hx
    refine ⟨DB.Ext.trans hext1 hext2, huq2, triple, r, hmt, hext2.mem hrmem, hrt, ?_⟩
    rw [hrcid]
    exact happ

theorem bundleApplied_mono {db db' : DB} {b : Bundle}
    (h : BundleApplied db b) (he : DB.Ext db db') : BundleApplied db' b := by
  obtain ⟨triple, r, hmt, hrmem, hrt, happ⟩ := h
  refine ⟨triple, r, hmt, he.mem hrmem, hrt, ?_⟩
  intro p hp orow ho
  obtain ⟨row, hrw, old, hold, hcf⟩ := happ p hp orow ho
  exact ⟨row, hrw, old, he.mem hold, hcf⟩

theorem insert_processed_noop {db : DB} {b : Bundle}
    (hu : CtxUnique db) (h : BundleApplied db b) : insert_processed db b = .ok db := by
  obtain ⟨triple, r, hmt, hrmem, hrt, happ⟩ := h
  unfold insert_processed
  rw [insertContext_noop hu hmt hrmem hrt]
  exact runStmts_noop happ

/-! ### Ingestion fold lemmas -/

theorem apply_bundles_append (xs ys : List Bundle) (db : DB) :
    apply_bundles (xs ++ ys) db =
      match apply_bundles xs db with
      | .error e => .error e
      | .ok d => apply_bundles ys d := by
  induction xs generalizing db with
  | nil => rfl
  | cons b bs ih =>
    show (match insert_processed db b with
      | Except.error e => (Except.error e : Except DB DB)
      | Except.ok db1 => apply_bundles (bs ++ ys) db1) =
      match (match insert_processed db b with
        | Except.error e => (Except.error e : Except DB DB)
        | Except.ok db1 => apply_bundles bs db1) with
      | Except.error e => Except.error e
      | Except.ok d => apply_bundles ys d
    cases insert_processed db b with
    | error e => rfl
    | ok db1 => exact ih db1

theorem apply_bundles_ok {bs : List Bundle} {db d : DB}
    (hu : CtxUnique db) (h : apply_bundles bs db = .ok d) :
    DB.Ext db d ∧ CtxUnique d ∧ ∀ b ∈ bs, BundleApplied d b := by
  induction bs generalizing db with
  | nil =>
    cases h
    exact ⟨DB.Ext.rfl d, hu, by simp⟩
  | cons b bs ih =>
    revert h
    show (match insert_processed db b with
      | .error e => Except.error e
      | .ok db1 => apply_bundles bs db1) = .ok d → _
    cases hstep : insert_processed db b with
    | error e => intro hc; cases hc
    | ok db1 =>
      intro h
      obtain ⟨hext1, huq1, happ1⟩ := insert_processed_ok hu hstep
      obtain ⟨hext2, huq2, happ2⟩ := ih huq1 h
      refine ⟨DB.Ext.trans hext1 hext2, huq2, ?_⟩
      intro b' hb'
      rcases List.mem_cons.mp hb' with he | hmem
      · subst he
        exact bundleApplied_mono happ1 hext2
      · exact happ2 b' hmem

theorem apply_bundles_noop {bs : List Bundle} {db : DB}
    (hu : CtxUnique db) (h : ∀ b ∈ bs, BundleApplied db b) :
    apply_bundles bs db = .ok db := by
  induction bs with
  | nil => rfl
  | cons b bs ih =>
    show (match insert_processed db b with
      | .error e => Except.error e
      | .ok db1 => apply_bundles bs db1) = .ok db
    rw [insert_processed_noop hu (h b (List.mem_cons_self b bs))]
    exact ih fun b' hb' => h b' (List.mem_cons_of_mem b hb')

theorem ctxUnique_freshInstalled : CtxUnique freshInstalled := by
  unfold CtxUnique freshInstalled
  exact List.Pairwise.nil

/-- Re-ingesting an already ingested list of bundles changes nothing. -/
theorem apply_bundles_idem {bs : List Bundle} {d : DB}
    (h : apply_bundles bs freshInstalled = .ok d) :
    apply_bundles (bs ++ bs) freshInstalled = .ok d := by
  rw [apply_bundles_append, h]
  obtain ⟨_, huq, happ⟩ := apply_bundles_ok ctxUnique_freshInstalled h
  exact apply_bundles_noop huq happ

/-! ### Flush lemmas -/

theorem rowConflict_symm (t : Table) (a b : Row) : rowConflict t a b = rowConflict t b a := by
  unfold rowConflict
  by_cases hk : rowKey t a = rowKey t b
  · rw [if_pos hk, if_pos hk.symm]
  · rw [if_neg hk, if_neg fun hc => hk hc.symm]
    cases t <;> simp [eq_comm]

theorem foldl_insertOrIgnore_mem {t : Table} {acc : Tbl} {rs : List Row} {x : Row}
    (h : x ∈ acc) : x ∈ rs.foldl (fun a r => insertOrIgnore t a r) acc := by
  induction rs generalizing acc with
  | nil => exact h
  | cons r rs ih => exact ih (mem_insertOrIgnore t r h)

theorem foldl_insertOrIgnore_covers {t : Table} {acc : Tbl} {rs : List Row} {x : Row}
    (h : x ∈ rs) :
    ∃ old ∈ rs.foldl (fun a r => insertOrIgnore t a r) acc, rowConflict t old x = true := by
  induction rs generalizing acc with
  | nil => cases h
  | cons r rs ih =>
    rw [List.foldl_cons]
    rcases List.mem_cons.mp h with he | hmem
    · subst he
      obtain ⟨old, hmem, hcf⟩ := insertOrIgnore_conflict_mem t acc x
      exact ⟨old, foldl_insertOrIgnore_mem hmem, hcf⟩
    · exact ih hmem

theorem foldl_insertOrIgnore_new {t : Table} {acc : Tbl} {rs : List Row} {x : Row}
    (hx : x ∈ rs)
    (hpw : rs.Pairwise fun a b => rowConflict t a b = false)
    (hacc : ∀ old ∈ acc, rowConflict t old x = false) :
    x ∈ rs.foldl (fun a r => insertOrIgnore t a r) acc := by
  induction rs generalizing acc with
  | nil => cases hx
  | cons r rs ih =>
    obtain ⟨hr, hpw'⟩ := List.pairwise_cons.mp hpw
    rw [List.foldl_cons]
    rcases List.mem_cons.mp hx with he | hmem
    · subst he
      exact foldl_insertOrIgnore_mem (insertOrIgnore_mem_new hacc)
    · refine ih hmem hpw' ?_
      intro old hold
      by_cases hany : (acc.any fun o => rowConflict t o r) = true
      · rw [insertOrIgnore, if_pos hany] at hold
        exact hacc old hold
      · rw [insertOrIgnore, if_neg hany] at hold
        rcases List.mem_append.mp hold with hl | hr'
        · exact hacc old hl
        · rw [List.mem_singleton.mp hr']
          exact hr x hmem

theorem mem_sortRows {t : Table} {rows : Tbl} {x : Row} :
    x ∈ sortRows t rows ↔ x ∈ rows :=
  (List.perm_insertionSort (rowLE t) rows).mem_iff

theorem sortRows_pairwise {t : Table} {rows : Tbl}
    (h : rows.Pairwise fun a b => rowConflict t a b = false) :
    (sortRows t rows).Pairwise fun a b => rowConflict t a b = false := by
  have hsymm : Symmetric fun a b : Row => rowConflict t a b = false := by
    intro a b hab
    rw [rowConflict_symm]
    exact hab
  exact ((List.perm_insertionSort (rowLE t) rows).pairwise_iff @hsymm).mpr h

theorem mergeTable_mem_target {t : Table} {stg tgt : Tbl} {x : Row}
    (h : x ∈ tgt) : x ∈ mergeTable t stg tgt :=
  foldl_insertOrIgnore_mem h

theorem mergeTable_covers {t : Table} {stg tgt : Tbl} {x : Row}
    (h : x ∈ stg) : ∃ old ∈ mergeTable t stg tgt, rowConflict t old x = true :=
  foldl_insertOrIgnore_covers (mem_sortRows.mpr h)

theorem mergeTable_new {t : Table} {stg tgt : Tbl} {x : Row}
    (hx : x ∈ stg)
    (hpw : stg.Pairwise fun a b => rowConflict t a b = false)
    (htgt : ∀ old ∈ tgt, rowConflict t old x = false) :
    x ∈ mergeTable t stg tgt :=
  foldl_insertOrIgnore_new (mem_sortRows.mpr hx) (sortRows_pairwise hpw) htgt

theorem mergeTable_sorted (t : Table) (stg : Tbl) :
    (sortRows t stg).Sorted (rowLE t) :=
  List.sorted_insertionSort (rowLE t) stg

theorem flushTables_eval :
    flushTables =
      [.collection_context, .user_at_time, .directly_collected_user,
       .tweet_at_time, .directly_collected_tweet, .tweet_hashtag,
       .tweet_cashtag, .tweet_mention, .url, .tweet_url, .poll, .poll_option,
       .place, .media, .tweet_media, .domain, .entity, .tweet_entity_domain,
       .metadata] := by
  decide

theorem flush_db_get (staging target : DB) (t : Table) :
    (flush_db staging target).get t = mergeTable t (staging.get t) (target.get t) := by
  cases t <;> rfl

/-! ### Extension on every path, and loop invariants -/

theorem foldl_insertOrIgnore_grows (t : Table) (rs : List Row) (acc : Tbl) :
    ∃ u, rs.foldl (fun a r => insertOrIgnore t a r) acc = acc ++ u := by
  induction rs generalizing acc with
  | nil => exact ⟨[], (List.append_nil _).symm⟩
  | cons r rs ih =>
    rw [List.foldl_cons]
    obtain ⟨u1, hu1⟩ := insertOrIgnore_grows t acc r
    obtain ⟨u2, hu2⟩ := ih (insertOrIgnore t acc r)
    exact ⟨u1 ++ u2, by rw [hu2, hu1, List.append_assoc]⟩

theorem flush_db_ext (staging target : DB) : DB.Ext target (flush_db staging target) := by
  intro t
  rw [flush_db_get]
  exact foldl_insertOrIgnore_grows t (sortRows t (staging.get t)) (target.get t)

theorem insertContext_ext (db : DB) (meta : Dict) :
    DB.Ext db (match insertContext db meta with
      | .ok pr => pr.1
      | .error e => e) := by
  unfold insertContext
  cases metaTriple meta with
  | none => exact DB.Ext.rfl db
  | some triple =>
    simp only []
    have hext : DB.Ext db (db.set .collection_context (ctxInsert (db.get .collection_context) triple)) := by
      intro t'
      by_cases he : t' = Table.collection_context
      · subst he
        rw [DB.get_set_same]
        exact ctxInsert_grows _ triple
      · rw [DB.get_set_ne db he]
        exact ⟨[], (List.append_nil _).symm⟩
    cases (ctxInsert (db.get .collection_context) triple).find? (fun r => r.drop 1 = triple) with
    | none => exact hext
    | some r => exact hext

theorem insert_processed_ext (db : DB) (b : Bundle) :
    DB.Ext db (outDB (insert_processed db b)) := by
  unfold insert_processed
  cases hic : insertContext db b.metadata with
  | error e =>
    have h := insertContext_ext db b.metadata
    rw [hic] at h
    exact h
  | ok pr =>
    obtain ⟨db1, cid⟩ := pr
    have h := insertContext_ext db b.metadata
    rw [hic] at h
    exact DB.Ext.trans h (runStmts_ext _ db1)

theorem simStep_inv {n : Nat} (oracle : Nat → Nat) {st : SimState} (p : Nat)
    (h1 : st.futures ≤ n + 1) (h2 : st.maxInFlight ≤ n + 2) :
    (simStep n oracle st p).futures ≤ n + 1 ∧
      (simStep n oracle st p).maxInFlight ≤ n + 2 := by
  unfold simStep
  by_cases hb : MIN_BATCH_SIZE ≤ st.batchSize + p <;>
    simp only [hb, if_true, if_false, ite_true, ite_false] <;>
    split <;>
    simp_all <;>
    omega

theorem insertPagesSim_foldl_inv (n : Nat) (oracle : Nat → Nat) (pages : List Nat)
    (st : SimState) (h1 : st.futures ≤ n + 1) (h2 : st.maxInFlight ≤ n + 2) :
    (pages.foldl (simStep n oracle) st).futures ≤ n + 1 ∧
      (pages.foldl (simStep n oracle) st).maxInFlight ≤ n + 2 := by
  induction pages generalizing st with
  | nil => exact ⟨h1, h2⟩
  | cons p ps ih =>
    rw [List.foldl_cons]
    obtain ⟨g1, g2⟩ := simStep_inv oracle p h1 h2
    exact ih _ g1 g2

/-! ### Claim theorems -/

/-- C1: the claim says applying one bundle is atomic under a savepoint, and
`insert_processed`'s own docstring promises the same — but the source opens
no savepoint.  Evaluating the code on a bundle whose place insert raises
(after the user inserts already ran) leaves the bundle's user rows in the
staging store while the exception propagates: the incomplete write persists. -/
theorem insert_processed_failure_keeps_rows :
    insert_processed freshInstalled badBundle =
      .error (outDB (insert_processed freshInstalled badBundle)) ∧
    (outDB (insert_processed freshInstalled badBundle)).user_at_time ≠ [] ∧
    (outDB (insert_processed freshInstalled badBundle)).directly_collected_user = [["7"]] ∧
    (outDB (insert_processed freshInstalled badBundle)).place = [] := by
  decide

/-- C2: ingestion is idempotent and duplicate-safe.  Ingesting a bundle list
twice into a fresh store produces the same final store (hence the same row
count in every table) as ingesting it once; and in the concrete three-page
scenario where pages 1 and 2 repeat post 100 at the same retrieval instant,
the post table holds exactly one row for that (post_id, retrieved_at) pair
and its hashtag row appears exactly once. -/
theorem ingest_idempotent_and_duplicate_safe :
    (∀ (bs : List Bundle) (d : DB), apply_bundles bs freshInstalled = .ok d →
        apply_bundles (bs ++ bs) freshInstalled = .ok d) ∧
    ((outDB (apply_bundles [dupPage1, dupPage2, dupPage3] freshInstalled)).get
        .tweet_at_time).countP
      (fun r => rowKey .tweet_at_time r = ["100", "t1"]) = 1 ∧
    ((outDB (apply_bundles [dupPage1, dupPage2, dupPage3] freshInstalled)).get
        .tweet_hashtag).count ["100", "t1", "x"] = 1 ∧
    apply_bundles [dupPage1, dupPage2, dupPage3] freshInstalled =
      .ok (outDB (apply_bundles [dupPage1, dupPage2, dupPage3] freshInstalled)) :=
  ⟨fun _ _ h => apply_bundles_idem h, by decide, by decide, by decide⟩

/-- Witness for C2: re-ingesting the single-user page into the store it
already produced changes nothing. -/
theorem ingest_idempotent_witness :
    apply_bundles ([userBundle] ++ [userBundle]) freshInstalled = .ok userDB :=
  ingest_idempotent_and_duplicate_safe.1 [userBundle] userDB (by decide)

/-- C3 (counterexample): a store stamped with schema version 0 has a present
version unequal to the compiled-in one, yet `ensure_db` does not raise — it
re-runs the install path and mutates the store (sets the WAL journal mode)
instead. -/
theorem schema_version_zero_installs :
    storedVersion verZeroStore = some 0 ∧ (0 : Int) ≠ CURRENT_SCHEMA_VERSION ∧
    ensure_db verZeroStore = .ok (installSchema verZeroStore) ∧
    (installSchema verZeroStore).wal = true ∧ verZeroStore.wal = false := by
  decide

/-- C3 (amended): opening a store whose recorded schema version is present,
nonzero and unequal to the compiled-in version fails with
`SchemaVersionError`, and the error carries the store unchanged — no
mutating statement runs on that path. -/
theorem schema_version_mismatch_fails_unmutated (s : Store) (v : Int)
    (hm : "metadata" ∈ s.tables) (hv : storedVersion s = some v)
    (h0 : v ≠ 0) (hc : v ≠ CURRENT_SCHEMA_VERSION) :
    ensure_db s = .error (.schemaVersionError, s) := by
  unfold ensure_db
  rw [if_pos hm]
  unfold storedVersion at hv
  rw [hv]
  simp [h0, hc]

/-- Witness for C3: a store stamped with the future version 13 is rejected
untouched. -/
theorem schema_version_mismatch_witness :
    ensure_db ver13Store = .error (.schemaVersionError, ver13Store) :=
  schema_version_mismatch_fails_unmutated ver13Store 13 (by decide) (by decide)
    (by decide) (by decide)

/-- C4 (counterexample): with one worker the claim's bound `n_cpus + 1 = 2`
is exceeded: after the third 1 MiB page is submitted, three futures are
outstanding before the writer waits, because the drain condition is
`len(futures) > n_cpus + 1`, checked only after submitting. -/
theorem writer_inflight_exceeds_bound :
    ¬ (insertPagesSim 1 (fun _ => 1) [2 ^ 20, 2 ^ 20, 2 ^ 20]).maxInFlight ≤ 1 + 1 := by
  decide

/-- C4 (amended): the number of submitted-but-undrained futures never
exceeds `n_cpus + 2`: the writer drains at least one completed batch
whenever the count exceeds `n_cpus + 1`, before the next submission. -/
theorem writer_inflight_bound (n : Nat) (oracle : Nat → Nat) (pages : List Nat) :
    (insertPagesSim n oracle pages).maxInFlight ≤ n + 2 := by
  unfold insertPagesSim
  obtain ⟨h1, h2⟩ :=
    insertPagesSim_foldl_inv n oracle pages ⟨0, 0, 0, 0⟩ (Nat.zero_le _) (Nat.zero_le _)
  simp only []
  omega

/-- C5: the DDL creates 21 tables but `table_keys` — the dict that drives
`flush_db` — lists only 19: `user_matching_ruleset` and
`user_ruleset_ngram_count` are never flushed, although the repository's own
`test_schema_prepare` asserts every created table is present in
`table_keys`. -/
theorem flush_skips_schema_tables :
    "user_matching_ruleset" ∈ schema_created_tables ∧
    "user_ruleset_ngram_count" ∈ schema_created_tables ∧
    "user_matching_ruleset" ∉ table_keys.map Prod.fst ∧
    "user_ruleset_ngram_count" ∉ table_keys.map Prod.fst ∧
    schema_created_tables.length = 21 ∧ table_keys.length = 19 := by
  decide

/-- C6 (counterexample): in the fan-out order actually executed by
`insert_processed`, the `directly_collected_tweet` marker is inserted after
the post table (and after several ancillary tables), contradicting the
claimed order "markers, then posts, then ancillary". -/
theorem direct_marker_not_before_posts :
    ¬ (((bundleStmts emptyBundle (mkMeta "t1")).map Prod.fst).indexOf
          Table.directly_collected_tweet <
        ((bundleStmts emptyBundle (mkMeta "t1")).map Prod.fst).indexOf
          Table.tweet_at_time) ∧
    Table.directly_collected_tweet ∈ (bundleStmts emptyBundle (mkMeta "t1")).map Prod.fst ∧
    Table.tweet_at_time ∈ (bundleStmts emptyBundle (mkMeta "t1")).map Prod.fst := by
  decide

/-- C6 (amended): for every bundle the statement fan-out targets the tables
in the fixed source order: users, the user direct-collection marker, posts,
then the ancillary tables with the post direct-collection marker inserted
between `tweet_url` and `tweet_entity_domain` (the collection context step
having run first inside `insert_processed`). -/
theorem bundle_stmt_order (b : Bundle) (meta : Dict) :
    (bundleStmts b meta).map Prod.fst =
      [.user_at_time, .directly_collected_user, .tweet_at_time, .tweet_media,
       .tweet_hashtag, .tweet_cashtag, .tweet_mention, .url, .tweet_url,
       .directly_collected_tweet, .tweet_entity_domain, .entity, .domain,
       .poll, .poll_option, .place, .media] := rfl

/-- C7 (counterexample): a store whose `metadata` table exists but holds no
version row is not treated as brand-new: `list(...)[0][0]` raises an
uncaught `IndexError` (only `OperationalError` is caught). -/
theorem missing_version_key_raises :
    storedVersion missingKeyStore = none ∧
    "metadata" ∈ missingKeyStore.tables ∧
    ensure_db missingKeyStore = .error (.indexError, missingKeyStore) := by
  decide

/-- C7 (amended): when the `metadata` table itself is absent `ensure_db`
installs the full schema (every DDL table) and switches the store to the WAL
journal mode; opening a store already stamped with the current version
returns it unchanged, so the WAL pragma runs on the install path only. -/
theorem ensure_db_installs_on_fresh (s : Store) (h : "metadata" ∉ s.tables) :
    (ensure_db s = .ok (installSchema s) ∧ (installSchema s).wal = true ∧
      ∀ t ∈ schema_created_tables, t ∈ (installSchema s).tables) ∧
    ∀ s' : Store, "metadata" ∈ s'.tables →
      storedVersion s' = some CURRENT_SCHEMA_VERSION → ensure_db s' = .ok s' := by
  constructor
  · refine ⟨?_, rfl, ?_⟩
    · unfold ensure_db
      rw [if_neg h]
    · intro t ht
      show t ∈ s.tables ++ schema_created_tables.filter (fun x => ¬ x ∈ s.tables)
      by_cases hts : t ∈ s.tables
      · exact List.mem_append_left _ hts
      · exact List.mem_append_right _ (List.mem_filter.mpr ⟨ht, by simpa using hts⟩)
  · intro s' hm hv
    unfold ensure_db
    rw [if_pos hm]
    unfold storedVersion at hv
    rw [hv]
    have h1 : ¬ (CURRENT_SCHEMA_VERSION = 0) := by decide
    have h2 : ¬ (CURRENT_SCHEMA_VERSION ≠ CURRENT_SCHEMA_VERSION) := fun hcon => hcon rfl
    simp [h1, h2]

/-- Witness for C7: installing on a blank store and reopening a correctly
stamped store. -/
theorem ensure_db_installs_witness :
    ensure_db blankStore = .ok (installSchema blankStore) ∧
    ensure_db stampedStore = .ok stampedStore :=
  ⟨(ensure_db_installs_on_fresh blankStore (by decide)).1.1,
   (ensure_db_installs_on_fresh blankStore (by decide)).2 stampedStore (by decide) (by decide)⟩

/-- C8 (counterexample): `place` is keyed by `place_id` alone, so the same
place observed at two distinct retrieval times with a changed name yields a
single stored row (the first observation), not two distinct rows. -/
theorem place_not_append_versioned :
    dlookup placeBundleA.metadata "retrieved_at" = some "t1" ∧
    dlookup placeBundleB.metadata "retrieved_at" = some "t2" ∧
    apply_bundles [placeBundleA, placeBundleB] freshInstalled =
      .ok (outDB (apply_bundles [placeBundleA, placeBundleB] freshInstalled)) ∧
    (outDB (apply_bundles [placeBundleA, placeBundleB] freshInstalled)).get .place =
      [placeRow "1" "A"] := by
  decide

/-- Pointwise consequence of mapping two functions over the same list. -/
theorem map_eq_map_mem {α β : Type} {f g : α → β} {l : List α}
    (h : l.map f = l.map g) : ∀ a ∈ l, f a = g a := by
  induction l with
  | nil => intro a ha; cases ha
  | cons hd tl ih =>
    intro a ha
    simp only [List.map_cons, List.cons.injEq] at h
    rcases List.mem_cons.mp ha with he | hm
    · subst he
      exact h.1
    · exact ih h.2 a hm

/-- For every table whose primary key includes `retrieved_at`, two rows with
distinct `retrieved_at` values never collide on any uniqueness constraint:
the later version of an entity is never suppressed by an earlier one. -/
theorem time_keyed_no_conflict (t : Table) (ht : "retrieved_at" ∈ t.pkNames)
    (r1 r2 : Row)
    (hne : r1.getD (t.cols.indexOf "retrieved_at") "" ≠
      r2.getD (t.cols.indexOf "retrieved_at") "") :
    rowConflict t r1 r2 = false := by
  have hi : t.cols.indexOf "retrieved_at" ∈ t.keyIdx := by
    unfold Table.keyIdx
    exact List.mem_map_of_mem _ ht
  have hkey : rowKey t r1 ≠ rowKey t r2 := by
    intro he
    unfold rowKey at he
    exact hne (map_eq_map_mem he _ hi)
  unfold rowConflict
  rw [if_neg hkey]
  cases t <;> first | rfl | exact absurd ht (by decide)

/-- C8 (amended): the ingestion core never updates or deletes a stored row
(`insert_processed` on either path and `flush_db` only ever append), and
every entity whose table key includes `retrieved_at` (users, posts,
hashtags, cashtags, mentions, urls, polls, poll options, media, topical
links) is append-versioned: observation at two distinct retrieval instants
never collides, so the earlier row is retained and the new distinct row is
inserted whenever no further stored row shares its exact key.  Rows sharing
a primary key are always resolved first-row-wins, and `place`, `domain`,
`entity` and the two directly-collected markers are keyed by their id column
alone, so for them a later observation at a different time is ignored. -/
theorem append_only_time_versioning :
    (∀ (db : DB) (b : Bundle), DB.Ext db (outDB (insert_processed db b))) ∧
    (∀ staging target : DB, DB.Ext target (flush_db staging target)) ∧
    (∀ t : Table, "retrieved_at" ∈ t.pkNames →
      ∀ r1 r2 : Row,
        r1.getD (t.cols.indexOf "retrieved_at") "" ≠
          r2.getD (t.cols.indexOf "retrieved_at") "" →
        rowConflict t r1 r2 = false ∧ r1 ≠ r2 ∧
        ∀ tbl : Tbl, r1 ∈ tbl →
          (∀ old ∈ tbl, old = r1 ∨ rowConflict t old r2 = false) →
          r1 ∈ insertOrIgnore t tbl r2 ∧ r2 ∈ insertOrIgnore t tbl r2) ∧
    (∀ (t : Table) (tbl : Tbl) (old r : Row), old ∈ tbl →
      rowKey t old = rowKey t r → insertOrIgnore t tbl r = tbl) ∧
    Table.keyIdx .place = [0] ∧ Table.keyIdx .domain = [0] ∧
    Table.keyIdx .entity = [0] ∧ Table.keyIdx .directly_collected_user = [0] ∧
    Table.keyIdx .directly_collected_tweet = [0] ∧
    apply_bundles [userBundle, userBundleLater] freshInstalled =
      .ok (outDB (apply_bundles [userBundle, userBundleLater] freshInstalled)) ∧
    ((outDB (apply_bundles [userBundle, userBundleLater] freshInstalled)).get
        .user_at_time).countP (fun r => r.getD 0 "" = "7") = 2 := by
  refine ⟨insert_processed_ext, flush_db_ext, ?_, ?_, by decide, by decide,
    by decide, by decide, by decide, by decide, by decide⟩
  · intro t ht r1 r2 hne
    have hcf : rowConflict t r1 r2 = false := time_keyed_no_conflict t ht r1 r2 hne
    refine ⟨hcf, fun he => hne (by rw [he]), ?_⟩
    intro tbl hr1 hall
    have hnone : ∀ old ∈ tbl, rowConflict t old r2 = false := by
      intro old ho
      rcases hall old ho with he | hok
      · rw [he]
        exact hcf
      · exact hok
    exact ⟨mem_insertOrIgnore t r2 hr1, insertOrIgnore_mem_new hnone⟩
  · intro t tbl old r hold hkey
    refine insertOrIgnore_of_conflict ⟨old, hold, ?_⟩
    unfold rowConflict
    rw [if_pos hkey]

/-- Witness for C8: the same user id stored at `t1` survives the insert of
its `t2` version and both rows are present; the same place id observed with
changed content is ignored first-row-wins. -/
theorem append_only_time_versioning_witness :
    (["7", "1", "t1", "alice"] : Row) ∈
      insertOrIgnore .user_at_time [["7", "1", "t1", "alice"]] ["7", "1", "t2", "alice2"] ∧
    (["7", "1", "t2", "alice2"] : Row) ∈
      insertOrIgnore .user_at_time [["7", "1", "t1", "alice"]] ["7", "1", "t2", "alice2"] ∧
    insertOrIgnore .place [placeRow "1" "A"] (placeRow "1" "B") = [placeRow "1" "A"] := by
  obtain ⟨hm1, hm2⟩ :=
    ((append_only_time_versioning.2.2.1 Table.user_at_time (by decide)
        ["7", "1", "t1", "alice"] ["7", "1", "t2", "alice2"] (by decide)).2.2
      [["7", "1", "t1", "alice"]] (by decide) (by decide))
  refine ⟨hm1, hm2, ?_⟩
  exact append_only_time_versioning.2.2.2.1 Table.place [placeRow "1" "A"]
    (placeRow "1" "A") (placeRow "1" "B") (by decide) (by decide)

/-- C9 (counterexample): a staged row whose primary key already exists in
the target store with different content is dropped by the shutdown flush's
insert-or-ignore: after a clean `insert_pages` run ingesting place 1 named
"B" into a target that already holds place 1 named "A", the staged row is
not present in the durable target. -/
theorem clean_shutdown_row_dropped :
    insert_pages (fun _ => placeBundleB) (fun _ => 1) (fun _ => 0) 1000 2 ["p"] targetWithA =
      .ok (pipelineShutdown (outDB (insert_processed freshInstalled placeBundleB)) targetWithA, 1) ∧
    placeRow "1" "B" ∈ (outDB (insert_processed freshInstalled placeBundleB)).get .place ∧
    placeRow "1" "B" ∉
      (pipelineShutdown (outDB (insert_processed freshInstalled placeBundleB)) targetWithA).get .place := by
  decide

/-- C9 (amended): the clean-shutdown flush merges every staged row of every
`table_keys` table into the target: some row with the staged row's key is
always present afterwards, and the staged row itself is present verbatim
whenever the target held no conflicting row (staging tables are key-unique
by construction). -/
theorem shutdown_flush_preserves_staged_keys (staging target : DB) (t : Table) (r : Row)
    (hr : r ∈ staging.get t) :
    (∃ r' ∈ (pipelineShutdown staging target).get t, rowConflict t r' r = true) ∧
    ((staging.get t).Pairwise (fun a b => rowConflict t a b = false) →
      (∀ old ∈ target.get t, rowConflict t old r = false) →
      r ∈ (pipelineShutdown staging target).get t) := by
  unfold pipelineShutdown
  constructor
  · rw [flush_db_get]
    exact mergeTable_covers hr
  · intro hpw htgt
    rw [flush_db_get]
    exact mergeTable_new hr hpw htgt

/-- Witness for C9: the staged place row survives the shutdown flush into a
fresh target. -/
theorem shutdown_flush_witness :
    placeRow "1" "B" ∈
      (pipelineShutdown (outDB (insert_processed freshInstalled placeBundleB))
        freshInstalled).get .place :=
  (shutdown_flush_preserves_staged_keys
      (outDB (insert_processed freshInstalled placeBundleB)) freshInstalled
      .place (placeRow "1" "B") (by decide)).2 (by decide) (by decide)

/-- C10: on an empty input stream `insert_pages` still terminates cleanly:
the final empty batch is submitted, `process_pages` of an empty batch is the
empty list, exactly one flush runs, and the target ends up as the freshly
installed store — the metadata version row and nothing else. -/
theorem empty_stream_single_flush (decode : String → Bundle) (oracle : Nat → Nat)
    (sizeFn : DB → Nat) (maxSize n_cpus : Nat) :
    insert_pages decode oracle sizeFn maxSize n_cpus [] freshInstalled =
      .ok (freshInstalled, 1) ∧
    process_pages decode [] = [] := by
  have hf : flush_db freshInstalled freshInstalled = freshInstalled := by decide
  exact ⟨by simp [insert_pages, pipeLoop, process_pages, apply_bundles,
    pipelineShutdown, hf], rfl⟩
